import Mathlib

/-!
Verification of the REDCap migration toolkit core (field mapper, rule
validator, PHI security handler) against its natural-language specification.

The Python sources (`redcap_migration/mapper.py`, `validator.py`,
`security.py`) are shallowly embedded below.  Records are modelled as
insertion-ordered association lists from field name to string value (the
scalar case of Python dicts); `rset` mirrors Python dict assignment
(update-in-place for an existing key, append for a new one).  `datetime.strptime`
is modelled for the three formats the code uses, including leap-year day
validation as performed by the `datetime` constructor; `float()` is
modelled on plain decimal notation as a parser into `ℚ`.  Code paths that
raise Python exceptions are modelled with `Except`/`Option`.  The Fernet
cipher (an external library) is modelled as an abstract pair of
encrypt/decrypt functions; concrete instances are supplied where theorems
are evaluated.
-/

namespace RedcapMigration

/-! ## Basic helpers on character lists -/

/-- Split a character list on a separator, mirroring Python `str.split(sep)`
for a one-character separator: `"".split` gives `[""]`, separators at the
ends give empty segments. -/
def splitOnC (sep : Char) : List Char → List (List Char)
  | [] => [[]]
  | c :: cs =>
    match splitOnC sep cs with
    | [] => [[c]]
    | h :: t => if c = sep then [] :: h :: t else (c :: h) :: t

/-- Numeric value of a digit list (most significant first). -/
def toNatD (cs : List Char) : Nat :=
  cs.foldl (fun n c => n * 10 + (c.toNat - 48)) 0

def allDigits (cs : List Char) : Bool := cs.all Char.isDigit

def strOf (cs : List Char) : String := ⟨cs⟩

/-- Python `str.strip()` on ASCII whitespace. -/
def trimC (cs : List Char) : List Char :=
  ((cs.dropWhile Char.isWhitespace).reverse.dropWhile Char.isWhitespace).reverse

/-- Zero-pad a numeral to two digits, as `strftime` does for `%m`/`%d`. -/
def pad2 (n : Nat) : String :=
  if n < 10 then "0" ++ toString n else toString n

/-! ## Records -/

/-- A data record: an insertion-ordered mapping from field name to scalar
(string) value, as the Python dicts the pipeline passes around. -/
abbrev Record := List (String × String)

/-- Python `field in record` / `record[field]` (first matching key;
Python dict keys are unique). -/
def rget : Record → String → Option String
  | [], _ => none
  | p :: t, k => if p.1 = k then some p.2 else rget t k

/-- Python `record[field] = value`: replace the value of an existing key in
place, else append the new pair at the end (dict insertion order). -/
def rset : Record → String → String → Record
  | [], k, v => [(k, v)]
  | p :: t, k, v => if p.1 = k then (k, v) :: t else p :: rset t k v

/-- Keys of a record, in order. -/
def rkeys (r : Record) : List String := r.map (·.1)

/-- Python truthiness of `field in record and record[field]` for string
values. -/
def truthyAt (r : Record) (k : String) : Bool :=
  match rget r k with
  | some v => v ≠ ""
  | none => false

theorem rget_rset_self (r : Record) (a b : String) :
    rget (rset r a b) a = some b := by
  induction r with
  | nil => simp [rset, rget]
  | cons p t ih =>
    by_cases hp : p.1 = a
    · simp [rset, rget, hp]
    · simp [rset, rget, hp, ih]

theorem rget_rset_ne (r : Record) (a b k : String) (h : k ≠ a) :
    rget (rset r a b) k = rget r k := by
  induction r with
  | nil =>
    have hak : ¬ (a = k) := fun hc => h hc.symm
    simp [rset, rget, hak]
  | cons p t ih =>
    have hak : ¬ (a = k) := fun hc => h hc.symm
    by_cases hp : p.1 = a
    · have hpk : ¬ (p.1 = k) := by rw [hp]; exact hak
      simp [rset, rget, hp, hpk, hak]
    · by_cases hpk : p.1 = k
      · simp [rset, rget, hp, hpk, h]
      · simp [rset, rget, hp, hpk, ih]

/-! ## Dates: `datetime.strptime` on the formats the code uses

`strptime` accepts exactly four digits for `%Y`, one or two digits for
`%m` (value 1..12) and `%d` (value 1..31), and a case-insensitive
three-letter month abbreviation for `%b`; the `datetime` constructor then
rejects day numbers past the month length (leap years included) and year 0.
`strftime('%Y-%m-%d')` zero-pads month and day to two digits. -/

structure Date where
  y : Nat
  m : Nat
  d : Nat
  deriving DecidableEq, Repr

def isLeap (y : Nat) : Bool :=
  y % 4 = 0 && (y % 100 ≠ 0 || y % 400 = 0)

def daysInMonth (y m : Nat) : Nat :=
  if m = 2 then (if isLeap y then 29 else 28)
  else if m = 4 ∨ m = 6 ∨ m = 9 ∨ m = 11 then 30
  else 31

/-- The `datetime(year, month, day)` constructor's validity check (month
and day lower/upper bounds are already enforced by the `strptime` regexes
below). -/
def mkDate (y m d : Nat) : Option Date :=
  if 1 ≤ y ∧ d ≤ daysInMonth y m then some ⟨y, m, d⟩ else none

/-- Format code `%Y`: exactly four digits. -/
def parseY4 (cs : List Char) : Option Nat :=
  if cs.length = 4 ∧ allDigits cs then some (toNatD cs) else none

/-- Format codes `%m` / `%d`: one or two digits within the given bounds. -/
def parseNum2 (cs : List Char) (lo hi : Nat) : Option Nat :=
  if (cs.length = 1 ∨ cs.length = 2) ∧ allDigits cs ∧ lo ≤ toNatD cs ∧ toNatD cs ≤ hi
  then some (toNatD cs) else none

def monthAbbrevTable : List (List Char × Nat) :=
  [(['j','a','n'], 1), (['f','e','b'], 2), (['m','a','r'], 3),
   (['a','p','r'], 4), (['m','a','y'], 5), (['j','u','n'], 6),
   (['j','u','l'], 7), (['a','u','g'], 8), (['s','e','p'], 9),
   (['o','c','t'], 10), (['n','o','v'], 11), (['d','e','c'], 12)]

/-- Format code `%b`: case-insensitive month abbreviation. -/
def parseMonthAbbrev (cs : List Char) : Option Nat :=
  (monthAbbrevTable.find? (fun p => p.1 = cs.map Char.toLower)).map (·.2)

/-- The three date formats appearing in the code: `%Y-%m-%d`, `%m/%d/%Y`,
`%d-%b-%Y`. -/
inductive DateFmt where
  | iso
  | us
  | dmy
  deriving DecidableEq, Repr

/-- Model of `datetime.strptime(value, fmt)` as `Option`: `none` models the raised
`ValueError`. -/
def strptime (fmt : DateFmt) (s : String) : Option Date :=
  match fmt with
  | .iso =>
    match splitOnC '-' s.data with
    | [ys, ms, ds] => do
      let y ← parseY4 ys
      let m ← parseNum2 ms 1 12
      let d ← parseNum2 ds 1 31
      mkDate y m d
    | _ => none
  | .us =>
    match splitOnC '/' s.data with
    | [ms, ds, ys] => do
      let m ← parseNum2 ms 1 12
      let d ← parseNum2 ds 1 31
      let y ← parseY4 ys
      mkDate y m d
    | _ => none
  | .dmy =>
    match splitOnC '-' s.data with
    | [ds, bs, ys] => do
      let d ← parseNum2 ds 1 31
      let b ← parseMonthAbbrev bs
      let y ← parseY4 ys
      mkDate y b d
    | _ => none

/-- Model of `dt.strftime('%Y-%m-%d')` (the year prints unpadded, as glibc does for
the four-digit years `strptime` admits). -/
def strftimeISO (d : Date) : String :=
  toString d.y ++ "-" ++ pad2 d.m ++ "-" ++ pad2 d.d

/-- Calendar comparison of two dates (what `datetime` comparison does). -/
def dateKey (d : Date) : Nat := d.y * 10000 + d.m * 100 + d.d

/-! ## Decimal numbers: `float()` on plain decimal notation

Modelled into `ℚ`: an optional sign, then digits with at most one decimal
point and at least one digit.  (Exponent notation and `inf`/`nan` do not
appear in the data the claims are about.) -/

def parseDigitsQ (intPart fracPart : List Char) : ℚ :=
  (toNatD intPart : ℚ) + (toNatD fracPart : ℚ) / ((10 : ℚ) ^ fracPart.length)

/-- Model of `float(s)` for plain decimal strings; `none` models the raised
`ValueError`. -/
def parseDec (s : String) : Option ℚ :=
  let cs := trimC s.data
  let (sign, body) :=
    match cs with
    | '-' :: t => ((-1 : ℚ), t)
    | '+' :: t => ((1 : ℚ), t)
    | t => ((1 : ℚ), t)
  match splitOnC '.' body with
  | [ip] =>
    if ip ≠ [] ∧ allDigits ip then some (sign * (toNatD ip : ℚ)) else none
  | [ip, fp] =>
    if (ip ≠ [] ∨ fp ≠ []) ∧ allDigits ip ∧ allDigits fp
    then some (sign * parseDigitsQ ip fp) else none
  | _ => none

/-! ## Field mapper (`mapper.py`, class `DataMapper`)

Ambient `logger.warning` calls are modelled as explicit warning lists
returned next to the value.  A mapped record may hold a composite checkbox
value, so target records map field names to `MValue`.  Calculated fields
substitute `\x7bfield\x7d` tokens and then `eval` the result; `eval` (a
general-purpose interpreter) is kept abstract as a parameter
`evalFn : String → Option String`, `none` modelling a raised exception. -/

/-- A value in a mapped (target) record: a scalar, or the per-option
dictionary a checkbox rule produces. -/
inductive MValue where
  | str (s : String)
  | obj (m : List (String × String))
  deriving DecidableEq, Repr

/-- A mapped target record. -/
abbrev MRecord := List (String × MValue)

/-- Python dict assignment on target records. -/
def mset : MRecord → String → MValue → MRecord
  | [], k, v => [(k, v)]
  | p :: t, k, v => if p.1 = k then (k, v) :: t else p :: mset t k v

/-- One entry of the mapping template's `fields` list. -/
structure FieldMap where
  source_field : String
  target_field : String
  /-- Python `field_map.get('field_type', 'text')`; unknown types fall through to
  the text behaviour, so the string form is kept. -/
  field_type : String
  date_format : Option DateFmt
  options : List (String × String)
  formula : Option String
  deriving Repr

/-- The mapping template (`fields`, `source_type`, `record_id_field`). -/
structure Mapping where
  fields : List FieldMap
  source_type : String
  record_id_field : String
  deriving Repr

/-- Embeds `DataMapper._format_date`: explicit format if given, else the fixed
candidate list `['%Y-%m-%d', '%m/%d/%Y', '%d-%b-%Y']`, first success wins,
output normalised via `strftime('%Y-%m-%d')`; total parse failure returns
the value unchanged with a warning. -/
def format_date (value : String) (date_format : Option DateFmt) :
    String × List String :=
  if value = "" then ("", [])
  else
    match date_format with
    | some f =>
      match strptime f value with
      | some dt => (strftimeISO dt, [])
      | none => (value, ["Error formatting date " ++ value])
    | none =>
      -- the for-loop over candidate formats with `break`, and its `else:` arm
      match strptime .iso value with
      | some dt => (strftimeISO dt, [])
      | none =>
        match strptime .us value with
        | some dt => (strftimeISO dt, [])
        | none =>
          match strptime .dmy value with
          | some dt => (strftimeISO dt, [])
          | none => (value, ["Could not parse date value: " ++ value])

/-- Embeds `DataMapper._format_checkbox` on a string input: split on commas and
strip, then one `'1'`/`'0'` sub-entry per configured option. -/
def format_checkbox (value : String) (options : List (String × String)) :
    List (String × String) :=
  let values := (splitOnC ',' value.data).map (fun v => strOf (trimC v))
  options.map (fun p => (p.1, if p.2 ∈ values ∨ p.1 ∈ values then "1" else "0"))

/-- Embeds `DataMapper._format_radio`: first option (in mapping order) whose label
or code equals the value; empty string plus a warning when unmatched. -/
def format_radio (value : String) (options : List (String × String)) :
    String × List String :=
  if value = "" then ("", [])
  else
    match options.find? (fun p => p.2 = value || p.1 = value) with
    | some p => (p.1, [])
    | none => ("", ["Radio value \x27" ++ value ++ "\x27 not found in options"])

/-- Embeds `DataMapper._format_dropdown`, which delegates to `_format_radio`. -/
def format_dropdown (value : String) (options : List (String × String)) :
    String × List String :=
  format_radio value options

/-- Embeds `DataMapper._apply_calculation`: substitute each `\x7bfield\x7d` token
(the containment test before `str.replace` is a no-op, since replacing an
absent pattern changes nothing), then evaluate; evaluation failure returns
the empty string. -/
def apply_calculation (evalFn : String → Option String) (row : Record)
    (formula : Option String) : String :=
  match formula with
  | none => ""
  | some f =>
    if f = "" then ""
    else
      let substituted := row.foldl
        (fun acc p => acc.replace ("\x7b" ++ p.1 ++ "\x7d") p.2) f
      match evalFn substituted with
      | some s => s
      | none => ""

/-- Embeds `DataMapper._map_field`: skip when the source field is absent, else
transform by field type and assign to the target field. -/
def map_field (evalFn : String → Option String) (fm : FieldMap)
    (row : Record) (rec : MRecord) : MRecord :=
  match rget row fm.source_field with
  | none => rec
  | some value =>
    let v : MValue :=
      if fm.field_type = "date" then .str (format_date value fm.date_format).1
      else if fm.field_type = "checkbox" then .obj (format_checkbox value fm.options)
      else if fm.field_type = "radio" then .str (format_radio value fm.options).1
      else if fm.field_type = "dropdown" then .str (format_dropdown value fm.options).1
      else if fm.field_type = "calculated" then .str (apply_calculation evalFn row fm.formula)
      else .str value
    mset rec fm.target_field v

/-- One iteration of `DataMapper.map_data`'s record loop: a fresh target
record seeded with `record_id`, or `none` (skip with a warning) when the
record-identifier field is absent. -/
def map_record (evalFn : String → Option String) (mp : Mapping)
    (row : Record) : Option MRecord :=
  match rget row mp.record_id_field with
  | none => none
  | some idv =>
    some (mp.fields.foldl (fun rec fm => map_field evalFn fm row rec)
      [("record_id", MValue.str idv)])

/-- Embeds `DataMapper.map_data` over a store of source records (state-passing
form: the first component is the store of source records, threaded through
so that any in-place write would be visible; the code only reads from it).
Rows are addressed by index, outputs are freshly built records.  A
non-`csv` `source_type` raises `ValueError`. -/
def map_data (evalFn : String → Option String) (mp : Mapping)
    (heap : List Record) (refs : List Nat) :
    List Record × Except String (List MRecord) :=
  if mp.source_type = "csv" then
    let out := refs.foldl
      (fun (acc : List Record × List MRecord) ref =>
        match map_record evalFn mp (acc.1.getD ref []) with
        | none => acc
        | some rec => (acc.1, acc.2 ++ [rec]))
      (heap, [])
    (out.1, .ok out.2)
  else
    (heap, .error "Unsupported source data type for automatic conversion")

/-! ## Security handler (`security.py`, class `SecurityHandler`)

The Fernet cipher from the external `cryptography` library is modelled as
an abstract pair of functions; `dec` returning `none` models the raised
`InvalidToken`.  A handler owns at most one cipher (generated at
construction in secure mode). -/

structure Cipher where
  enc : String → String
  dec : String → Option String

structure SecurityHandler where
  secure_mode : Bool
  phi_fields : List String
  cipher : Option Cipher

/-- The keyword battery of `_detect_phi_fields` (each regex
`(?i)(a|b|...)` is a case-insensitive substring search for any
alternative; `break` after the first hit keeps each field at most once, so
the scan is a filter over the sample record's field names). -/
def phiKeywords : List String :=
  ["name", "first", "last", "middle", "initial", "full",
   "ssn", "social", "security",
   "dob", "birth", "birthday",
   "address", "street", "city", "state", "zip", "postal",
   "email", "e-mail",
   "phone", "cell", "mobile", "fax",
   "mrn", "medical", "record", "patient", "id",
   "license", "driver"]

/-- Boolean substring test on character lists. -/
def isInfixC (needle : List Char) : List Char → Bool
  | [] => needle.isEmpty
  | c :: cs => needle.isPrefixOf (c :: cs) || isInfixC needle cs

/-- Case-insensitive substring test (`re.search` with `(?i)`). -/
def containsCI (hay needle : String) : Bool :=
  isInfixC needle.data (hay.data.map Char.toLower)

/-- Embeds `SecurityHandler._detect_phi_fields`: scan the first record's field
names against the keyword battery. -/
def detect_phi_fields (data : List Record) : List String :=
  match data with
  | [] => []
  | sample :: _ =>
    (rkeys sample).filter (fun f => phiKeywords.any (fun kw => containsCI f kw))

/-- Embeds `SecurityHandler._redact_phi`.  (`parts[0]`/`parts[1]` are the head
and second element of `value.split('@')`.) -/
def redact_phi (value : String) : String :=
  if value.data = [] then value
  else if value.data.contains '@'
      && ((splitOnC '@' value.data).getD 1 []).contains '.' then
    -- email-shaped: mask the local part, keep `parts[1]`
    strOf
      ((if 2 < ((splitOnC '@' value.data).headD []).length then
          ((splitOnC '@' value.data).headD []).take 1
            ++ List.replicate (((splitOnC '@' value.data).headD []).length - 2) '*'
            ++ ((splitOnC '@' value.data).headD []).drop
                (((splitOnC '@' value.data).headD []).length - 1)
        else List.replicate ((splitOnC '@' value.data).headD []).length '*')
        ++ '@' :: (splitOnC '@' value.data).getD 1 [])
  else if value.data.all (fun c => c.isDigit || c = '-' || c = '(' || c = ')') then
    -- phone-shaped: regex ^[0-9-()]+$ (the value is non-empty here)
    if 4 < (value.data.filter Char.isDigit).length then
      strOf ((value.data.filter Char.isDigit).take 2
        ++ List.replicate ((value.data.filter Char.isDigit).length - 4) '*'
        ++ (value.data.filter Char.isDigit).drop
            ((value.data.filter Char.isDigit).length - 2))
    else strOf (List.replicate (value.data.filter Char.isDigit).length '*')
  else if 6 < value.data.length then
    strOf (value.data.take 2 ++ List.replicate (value.data.length - 4) '*'
      ++ value.data.drop (value.data.length - 2))
  else strOf (List.replicate value.data.length '*')

/-- Suffix of the sibling field that stores ciphertext. -/
def encSuffix : String := "_encrypted"

/-- The body of `_secure_phi_data`'s field loop on one (already copied)
record: encrypt-then-redact when a cipher is present, redact otherwise;
fields that are absent or falsy are left alone. -/
def secure_field (c : Option Cipher) (r : Record) (f : String) : Record :=
  match rget r f with
  | none => r
  | some v =>
    if v = "" then r
    else
      match c with
      | some ci => rset (rset r (f ++ encSuffix) (ci.enc v)) f (redact_phi v)
      | none => rset r f (redact_phi v)

/-- Securing one record: `record.copy()` then the loop over
`self.phi_fields` (modelled as a fold over the configured field list). -/
def secure_record (c : Option Cipher) (phi : List String) (r : Record) : Record :=
  phi.foldl (secure_field c) r

/-- Embeds `SecurityHandler._secure_phi_data`: resolve the PHI field list (detect
only when the stored list is empty/falsy), then emit a secured copy of
every record; returns the updated handler state and the new records. -/
def secure_phi_data (h : SecurityHandler) (data : List Record) :
    SecurityHandler × List Record :=
  let phi := if h.phi_fields = [] then detect_phi_fields data else h.phi_fields
  ({ h with phi_fields := phi }, data.map (secure_record h.cipher phi))

/-- Embeds `SecurityHandler.decrypt_field`: `none` models both the
`ValueError("Encryption not initialized")` misuse error and a failed
decryption. -/
def decrypt_field (h : SecurityHandler) (v : String) : Option String :=
  match h.cipher with
  | none => none
  | some c => c.dec v

/-- Embeds `_secure_phi_data` over a store of records (state-passing form for the
frame claim: the input store is threaded through the loop; the code reads
a record, copies it, and appends the secured copy to a fresh output
list). -/
def secure_phi_data_store (phi0 : List String) (c : Option Cipher)
    (heap : List Record) (refs : List Nat) : List Record × List Record :=
  let data := refs.map (fun ref => heap.getD ref [])
  let phi := if phi0 = [] then detect_phi_fields data else phi0
  refs.foldl
    (fun (acc : List Record × List Record) ref =>
      (acc.1, acc.2 ++ [secure_record c phi (acc.1.getD ref [])]))
    (heap, [])

/-- A concrete reversible cipher standing in for a Fernet instance when
theorems are evaluated: tokens are framed like Fernet's (base64 text
beginning `gAAAAA`), and decryption recovers the payload exactly from a
well-formed token and fails on anything else. -/
def toyEnc (s : String) : String := "gAAAAA" ++ s ++ "="

def toyDec (s : String) : Option String :=
  match s.data with
  | 'g' :: 'A' :: 'A' :: 'A' :: 'A' :: 'A' :: rest =>
    if rest ≠ [] ∧ rest.getLast? = some '=' then some (strOf rest.dropLast)
    else none
  | _ => none

def toyCipher : Cipher := ⟨toyEnc, toyDec⟩

/-! ### Claim-side restatement of the redaction policy (for C6)

`claimRedact` renders the amended claim's wording: a case split in which
"keep the first `k` and last `k` characters and mask the interior" is
expressed positionally. -/

/-- Mask every position except the first `k` and last `k`. -/
def maskKeep (k : Nat) (cs : List Char) : List Char :=
  (List.range cs.length).map
    (fun i => if i < k ∨ cs.length - k ≤ i then cs.getD i '*' else '*')

/-- The local part: everything before the first `@`. -/
def localPart (cs : List Char) : List Char := cs.takeWhile (· ≠ '@')

/-- The domain segment: between the first and second `@` (the remainder,
when there is no second `@`). -/
def domainSeg (cs : List Char) : List Char :=
  ((cs.dropWhile (· ≠ '@')).drop 1).takeWhile (· ≠ '@')

def isEmailShaped (cs : List Char) : Bool :=
  cs.contains '@' && (domainSeg cs).contains '.'

def isPhoneShaped (cs : List Char) : Bool :=
  cs.all (fun c => c.isDigit || c = '-' || c = '(' || c = ')')

/-- The redaction policy as the amended claim states it: exactly one case
applies to each non-empty value — email-shaped values keep the first and
last character of a local part longer than two characters (shorter local
parts are masked entirely) and keep the segment between the first and
second `@` (any later segments are dropped); values of digits, hyphens
and parentheses only are reduced to their digits, which keep the first
two and last two when more than four, else are masked entirely; any other
value longer than six characters keeps its first two and last two
characters; everything else is masked entirely; empty values pass
through. -/
def claimRedact (value : String) : String :=
  if value.data = [] then value
  else if isEmailShaped value.data then
    strOf
      ((if 2 < (localPart value.data).length then maskKeep 1 (localPart value.data)
        else (localPart value.data).map (fun _ => '*'))
        ++ '@' :: domainSeg value.data)
  else if isPhoneShaped value.data then
    if 4 < (value.data.filter Char.isDigit).length then
      strOf (maskKeep 2 (value.data.filter Char.isDigit))
    else strOf ((value.data.filter Char.isDigit).map (fun _ => '*'))
  else if 6 < value.data.length then strOf (maskKeep 2 value.data)
  else strOf (value.data.map (fun _ => '*'))

/-! ## Rule validator (`validator.py`, class `DataValidator`)

Rule-set values are the strings a JSON rule document supplies.  The
verdict's optional keys (`warnings`, `record_issues`, `stats`) are
`Option`-valued: `none` models a key that is absent from the returned
dict, as in the early return for empty input.  `validate` returns
`Except String Verdict`: the `.error` case models an uncaught Python
exception escaping `validate` (the `KeyError` reachable in
`_check_date_ranges`'s message building). -/

structure RangeRule where
  min : Option String
  max : Option String
  deriving Repr, DecidableEq

structure ValidationRules where
  required_fields : List String
  field_formats : List (String × String)
  date_range : List (String × RangeRule)
  numeric_range : List (String × RangeRule)
  deriving Repr

structure RecordIssues where
  errors : List String
  warnings : List String
  deriving Repr, DecidableEq

structure Stats where
  total_records : Nat
  records_with_issues : Nat
  total_errors : Nat
  total_warnings : Nat
  deriving Repr, DecidableEq

/-- The in-progress `results` dict while the five checks run. -/
structure Results where
  errors : List String
  warnings : List String
  record_issues : List (String × RecordIssues)
  deriving Repr

/-- The returned verdict dict; `none` in an optional field models an
absent key. -/
structure Verdict where
  is_valid : Bool
  errors : List String
  warnings : Option (List String)
  record_issues : Option (List (String × RecordIssues))
  stats : Option Stats
  deriving Repr, DecidableEq

/-- Python `record.get("record_id", f"Record_\x7bi\x7d")`. -/
def labelOf (r : Record) (i : Nat) : String :=
  (rget r "record_id").getD ("Record_" ++ toString i)

/-- Look up one record's issue entry (`\x7b"errors": [], "warnings": []\x7d`
when the key is absent). -/
def getIssues (ris : List (String × RecordIssues)) (k : String) : RecordIssues :=
  match ris with
  | [] => ⟨[], []⟩
  | p :: t => if p.1 = k then p.2 else getIssues t k

def pushIssue (ri : RecordIssues) (isErr : Bool) (m : String) : RecordIssues :=
  if isErr then { ri with errors := ri.errors ++ [m] }
  else { ri with warnings := ri.warnings ++ [m] }

/-- The record-issues map update inside `_add_record_issue`. -/
def addIssueTo (k : String) (isErr : Bool) (m : String) :
    List (String × RecordIssues) → List (String × RecordIssues)
  | [] => [(k, pushIssue ⟨[], []⟩ isErr m)]
  | p :: t =>
    if p.1 = k then (p.1, pushIssue p.2 isErr m) :: t
    else p :: addIssueTo k isErr m t

/-- Embeds `DataValidator._add_record_issue`: create the record's entry on first
use (dict insertion order), then append the message to the chosen list. -/
def addRecordIssue (res : Results) (k : String) (isErr : Bool) (m : String) :
    Results :=
  { res with record_issues := addIssueTo k isErr m res.record_issues }

/-- Pair every record with its index, as `enumerate(data)` does. -/
def enumIdx : Nat → List Record → List (Nat × Record)
  | _, [] => []
  | i, x :: xs => (i, x) :: enumIdx (i + 1) xs

/-- Embeds `DataValidator._is_valid_date`: strict `%Y-%m-%d` parse. -/
def is_valid_date (s : String) : Bool := (strptime .iso s).isSome

/-- Embeds `DataValidator._is_valid_email`. -/
def is_valid_email (s : String) : Bool :=
  s.data.contains '@' && ((splitOnC '@' s.data).getD 1 []).contains '.'

/-- Embeds `DataValidator._is_valid_phone`. -/
def is_valid_phone (s : String) : Bool :=
  (s.data.filter Char.isDigit).length ≥ 10

def missingReqMsg (missing : List String) : String :=
  "Missing required fields: " ++ String.intercalate ", " missing

/-- Embeds `DataValidator._check_required_fields`. -/
def check_required_fields (rules : ValidationRules) (data : List Record)
    (res : Results) : Results :=
  if rules.required_fields = [] then res
  else
    (enumIdx 0 data).foldl
      (fun res p =>
        if rules.required_fields.filter (fun f => ¬ truthyAt p.2 f) = [] then res
        else addRecordIssue res (labelOf p.2 p.1) true
          (missingReqMsg (rules.required_fields.filter (fun f => ¬ truthyAt p.2 f))))
      res

def invalidFmtMsg (kind field value : String) : String :=
  "Invalid " ++ kind ++ " format in field \x27" ++ field ++ "\x27: " ++ value

/-- Embeds `DataValidator._check_field_formats`. -/
def check_field_formats (rules : ValidationRules) (data : List Record)
    (res : Results) : Results :=
  if rules.field_formats = [] then res
  else
    (enumIdx 0 data).foldl
      (fun res p =>
        rules.field_formats.foldl
          (fun res fr =>
            match rget p.2 fr.1 with
            | none => res
            | some value =>
              if value = "" then res
              else if fr.2 = "date" ∧ ¬ is_valid_date value then
                addRecordIssue res (labelOf p.2 p.1) true (invalidFmtMsg "date" fr.1 value)
              else if fr.2 = "email" ∧ ¬ is_valid_email value then
                addRecordIssue res (labelOf p.2 p.1) true (invalidFmtMsg "email" fr.1 value)
              else if fr.2 = "phone" ∧ ¬ is_valid_phone value then
                addRecordIssue res (labelOf p.2 p.1) true (invalidFmtMsg "phone" fr.1 value)
              else res)
          res)
      res

/-- Short-circuiting fold for the one check whose body can raise. -/
def foldE {α : Type} (f : Results → α → Except String Results) :
    List α → Results → Except String Results
  | [], res => .ok res
  | x :: xs, res =>
    match f res x with
    | .error e => .error e
    | .ok res' => foldE f xs res'

def noParseDateMsg (field value : String) : String :=
  "Could not parse date in field \x27" ++ field ++ "\x27: " ++ value

def beforeMinMsg (field value minRaw : String) : String :=
  "Date in field \x27" ++ field ++ "\x27 is before minimum allowed: "
    ++ value ++ " < " ++ minRaw

def afterMaxMsg (field value maxRaw : String) : String :=
  "Date in field \x27" ++ field ++ "\x27 is after maximum allowed: "
    ++ value ++ " > " ++ maxRaw

/-- One `(field, range_rule)` iteration of `_check_date_ranges`: parse the
value, then the min bound (default `1900-01-01`), then the max bound
(default `2100-12-31`); any `ValueError` is caught and becomes a
per-record error.  The out-of-range messages interpolate
`range_rule['min']` / `range_rule['max']` directly, which raises an
uncaught `KeyError` when the bound was defaulted. -/
def date_rule_step (rid : String) (r : Record) (res : Results)
    (p : String × RangeRule) : Except String Results :=
  match rget r p.1 with
  | none => .ok res
  | some value =>
    if value = "" then .ok res
    else
      match strptime .iso value with
      | none => .ok (addRecordIssue res rid true (noParseDateMsg p.1 value))
      | some dv =>
        match strptime .iso (p.2.min.getD "1900-01-01") with
        | none => .ok (addRecordIssue res rid true (noParseDateMsg p.1 value))
        | some mind =>
          match strptime .iso (p.2.max.getD "2100-12-31") with
          | none => .ok (addRecordIssue res rid true (noParseDateMsg p.1 value))
          | some maxd =>
            if dateKey dv < dateKey mind then
              match p.2.min with
              | some ms => .ok (addRecordIssue res rid true (beforeMinMsg p.1 value ms))
              | none => .error "KeyError: \x27min\x27"
            else if dateKey maxd < dateKey dv then
              match p.2.max with
              | some xs => .ok (addRecordIssue res rid true (afterMaxMsg p.1 value xs))
              | none => .error "KeyError: \x27max\x27"
            else .ok res

/-- Embeds `DataValidator._check_date_ranges`. -/
def check_date_ranges (rules : ValidationRules) (data : List Record)
    (res : Results) : Except String Results :=
  if rules.date_range = [] then .ok res
  else
    foldE
      (fun res p => foldE (date_rule_step (labelOf p.2 p.1) p.2) rules.date_range res)
      (enumIdx 0 data) res

def noParseNumMsg (field value : String) : String :=
  "Could not parse numeric value in field \x27" ++ field ++ "\x27: " ++ value

/-- Rendering of the parsed bounds/values in the range messages (Python
prints the parsed floats; only the rendering differs here). -/
def ratStr (q : ℚ) : String :=
  if q.den = 1 then toString q.num
  else toString q.num ++ "/" ++ toString q.den

def belowMinMsg (field : String) (value minv : ℚ) : String :=
  "Value in field \x27" ++ field ++ "\x27 is below minimum: "
    ++ ratStr value ++ " < " ++ ratStr minv

def aboveMaxMsg (field : String) (value maxv : ℚ) : String :=
  "Value in field \x27" ++ field ++ "\x27 is above maximum: "
    ++ ratStr value ++ " > " ++ ratStr maxv

/-- One `(field, range_rule)` iteration of `_check_numeric_ranges`: parse
the value, then the min bound, then the max bound (absent bounds default
to `-inf`/`inf`, i.e. no constraint); a `ValueError` from any of the three
`float()` calls becomes the same per-record parse error. -/
def numeric_rule_step (rid : String) (r : Record) (res : Results)
    (p : String × RangeRule) : Results :=
  match rget r p.1 with
  | none => res
  | some value =>
    if value = "" then res
    else
      match parseDec value with
      | none => addRecordIssue res rid true (noParseNumMsg p.1 value)
      | some q =>
        match p.2.min with
        | some ms =>
          match parseDec ms with
          | none => addRecordIssue res rid true (noParseNumMsg p.1 value)
          | some mq =>
            match p.2.max with
            | some xs =>
              match parseDec xs with
              | none => addRecordIssue res rid true (noParseNumMsg p.1 value)
              | some xq =>
                if q < mq then addRecordIssue res rid true (belowMinMsg p.1 q mq)
                else if xq < q then
                  addRecordIssue res rid true (aboveMaxMsg p.1 q xq)
                else res
            | none =>
              if q < mq then addRecordIssue res rid true (belowMinMsg p.1 q mq)
              else res
        | none =>
          match p.2.max with
          | some xs =>
            match parseDec xs with
            | none => addRecordIssue res rid true (noParseNumMsg p.1 value)
            | some xq =>
              if xq < q then addRecordIssue res rid true (aboveMaxMsg p.1 q xq)
              else res
          | none => res

/-- Embeds `DataValidator._check_numeric_ranges`. -/
def check_numeric_ranges (rules : ValidationRules) (data : List Record)
    (res : Results) : Results :=
  if rules.numeric_range = [] then res
  else
    (enumIdx 0 data).foldl
      (fun res p =>
        rules.numeric_range.foldl (numeric_rule_step (labelOf p.2 p.1) p.2) res)
      res

def dupMsg (id : String) : String := "Duplicate record ID found: " ++ id

/-- The identifiers of the records that carry a `record_id` key. -/
def recordIds (data : List Record) : List String :=
  data.filterMap (fun r => rget r "record_id")

/-- The union of all field names across the record set, first occurrences
first (the iteration order of the Python set is immaterial to the
claims). -/
def allFields (data : List Record) : List String :=
  (data.foldl (fun acc r => acc ++ rkeys r) []).dedup

/-- Python `all_fields - set(record.keys())` with `record_id` removed. -/
def missingOf (data : List Record) (r : Record) : List String :=
  (allFields data).filter (fun f => ¬ (rkeys r).contains f ∧ f ≠ "record_id")

def presenceMsg (missing : List String) : String :=
  "Fields present in other records but missing in this one: "
    ++ String.intercalate ", " missing

/-- Embeds `DataValidator._check_data_consistency`: one global error per distinct
duplicated identifier, then a per-record warning for field-presence
drift. -/
def check_data_consistency (data : List Record) (res : Results) : Results :=
  (enumIdx 0 data).foldl
    (fun res p =>
      if missingOf data p.2 = [] then res
      else addRecordIssue res (labelOf p.2 p.1) false (presenceMsg (missingOf data p.2)))
    { res with errors := res.errors
        ++ (((recordIds data).filter
            (fun id => 1 < (recordIds data).count id)).dedup).map dupMsg }

/-- Total error / warning tallies over a `Results`. -/
def resTotalErrors (res : Results) : Nat :=
  res.errors.length + (res.record_issues.map (fun p => p.2.errors.length)).sum

def resTotalWarnings (res : Results) : Nat :=
  res.warnings.length + (res.record_issues.map (fun p => p.2.warnings.length)).sum

/-- The summary-statistics and `is_valid` assembly at the end of
`DataValidator.validate`. -/
def finalize (data : List Record) (res : Results) : Verdict :=
  { is_valid := resTotalErrors res == 0
    errors := res.errors
    warnings := some res.warnings
    record_issues := some res.record_issues
    stats := some
      { total_records := data.length
        records_with_issues := res.record_issues.length
        total_errors := resTotalErrors res
        total_warnings := resTotalWarnings res } }

/-- Embeds `DataValidator.validate`: early return for falsy input, else the five
checks in sequence followed by the summary.  `.error` models an uncaught
exception. -/
def validate (rules : ValidationRules) (data : List Record) :
    Except String Verdict :=
  if data = [] then
    .ok ⟨false, ["No data provided for validation"], none, none, none⟩
  else
    match check_date_ranges rules data
        (check_field_formats rules data
          (check_required_fields rules data ⟨[], [], []⟩)) with
    | .error e => .error e
    | .ok r3 =>
      .ok (finalize data (check_data_consistency data
        (check_numeric_ranges rules data r3)))

/-! ## Helper functions and lemmas for the claim theorems -/

/-- Total error count of a verdict: global errors plus the per-record
error-list lengths (an absent `record_issues` key contributes nothing). -/
def totalErrorCount (v : Verdict) : Nat :=
  v.errors.length + ((v.record_issues.getD []).map (fun p => p.2.errors.length)).sum

/-- Extract the verdict from a successful validation (default verdict on
the error case; used only to name concrete successful runs). -/
def okD (e : Except String Verdict) : Verdict :=
  match e with
  | .ok v => v
  | .error _ => ⟨false, [], none, none, none⟩

theorem validate_ok_cases (rules : ValidationRules) (data : List Record)
    (v : Verdict) (h : validate rules data = .ok v) :
    (data = [] ∧ v = ⟨false, ["No data provided for validation"], none, none, none⟩)
    ∨ (data ≠ [] ∧ ∃ r3,
        check_date_ranges rules data
          (check_field_formats rules data
            (check_required_fields rules data ⟨[], [], []⟩)) = .ok r3
        ∧ v = finalize data (check_data_consistency data
            (check_numeric_ranges rules data r3))) := by
  by_cases hd : data = []
  · left
    refine ⟨hd, ?_⟩
    rw [validate, if_pos hd] at h
    exact (Except.ok.inj h).symm
  · right
    refine ⟨hd, ?_⟩
    rw [validate, if_neg hd] at h
    cases h3 : check_date_ranges rules data
        (check_field_formats rules data
          (check_required_fields rules data ⟨[], [], []⟩)) with
    | error e => rw [h3] at h; exact absurd h (by simp)
    | ok r3 =>
      rw [h3] at h
      exact ⟨r3, rfl, (Except.ok.inj h).symm⟩

/-! ## Claim theorems -/

/-- C1: for every record set passed to `validate`, the returned verdict's
`is_valid` flag is true iff the total error count (global errors plus the
sum of per-record error-list lengths) is zero; warnings appear nowhere in
the condition, so they never affect validity. -/
theorem c1_is_valid_iff_no_errors (rules : ValidationRules)
    (data : List Record) (v : Verdict) (h : validate rules data = .ok v) :
    v.is_valid = true ↔ totalErrorCount v = 0 := by
  rcases validate_ok_cases rules data v h with ⟨_, hv⟩ | ⟨_, r3, _, hv⟩
  · subst hv; simp [totalErrorCount]
  · subst hv
    simp [finalize, totalErrorCount, resTotalErrors]

/-- Witness for C1 at a concrete record set. -/
theorem c1_witness :
    (okD (validate ⟨[], [], [], []⟩ [[("record_id", "1")]])).is_valid = true
      ↔ totalErrorCount (okD (validate ⟨[], [], [], []⟩ [[("record_id", "1")]])) = 0 :=
  c1_is_valid_iff_no_errors ⟨[], [], [], []⟩ [[("record_id", "1")]] _ rfl

/-- C10: `validate` on an empty (falsy) record set returns a verdict
carrying exactly the keys `is_valid` (false) and `errors` (the single
global error), with `warnings`, `record_issues` and `stats` absent
(modelled as `none`), while every successful validation of a non-empty set
returns a verdict in which all three optional keys are present. -/
theorem c10_verdict_shape :
    (∀ rules : ValidationRules,
      validate rules [] =
        .ok ⟨false, ["No data provided for validation"], none, none, none⟩)
    ∧ (∀ (rules : ValidationRules) (data : List Record) (v : Verdict),
        data ≠ [] → validate rules data = .ok v →
        v.warnings.isSome ∧ v.record_issues.isSome ∧ v.stats.isSome) := by
  constructor
  · intro rules
    rw [validate, if_pos rfl]
  · intro rules data v hne h
    rcases validate_ok_cases rules data v h with ⟨hd, _⟩ | ⟨_, r3, _, hv⟩
    · exact absurd hd hne
    · subst hv; simp [finalize]

/-- Witness for C10 at concrete inputs. -/
theorem c10_witness :
    validate ⟨[], [], [], []⟩ [] =
      .ok ⟨false, ["No data provided for validation"], none, none, none⟩
    ∧ ((okD (validate ⟨[], [], [], []⟩ [[("a", "b")]])).warnings.isSome
        ∧ (okD (validate ⟨[], [], [], []⟩ [[("a", "b")]])).record_issues.isSome
        ∧ (okD (validate ⟨[], [], [], []⟩ [[("a", "b")]])).stats.isSome) :=
  ⟨c10_verdict_shape.1 ⟨[], [], [], []⟩,
   c10_verdict_shape.2 ⟨[], [], [], []⟩ [[("a", "b")]] _ (by decide) rfl⟩

/-- C7 counterexample: a handler constructed without an explicit PHI list
runs inference on its first secure call; when that inference yields the
empty set (first record has no PHI-like field names), the stored list
stays empty and a later secure call re-runs inference and changes the
field set — refuting "inferred at most once per instance, then fixed". -/
theorem c7_counterexample :
    ((secure_phi_data (secure_phi_data ⟨false, [], none⟩ [[("foo", "x")]]).1
        [[("email", "a@b.com")]]).1).phi_fields
      ≠ ((secure_phi_data ⟨false, [], none⟩ [[("foo", "x")]]).1).phi_fields := by
  decide

/-- C7 amended: inference from the first record's field names runs on
every secure call made while the stored PHI field set is empty; as soon as
the stored set is non-empty (explicitly supplied, or a non-empty inference
result), later secure calls never re-run inference or change it. -/
theorem c7_amended_inference :
    (∀ (h : SecurityHandler) (data : List Record),
      (secure_phi_data h data).1.phi_fields
        = if h.phi_fields = [] then detect_phi_fields data else h.phi_fields)
    ∧ (∀ (h : SecurityHandler) (d1 : List Record),
        (secure_phi_data h d1).1.phi_fields ≠ [] →
        ∀ d2 : List Record,
          (secure_phi_data (secure_phi_data h d1).1 d2).1.phi_fields
            = (secure_phi_data h d1).1.phi_fields) := by
  refine ⟨fun h data => rfl, fun h d1 hne d2 => ?_⟩
  show (if (secure_phi_data h d1).1.phi_fields = [] then _ else _) = _
  rw [if_neg hne]

/-- Witness for C7's amended statement at a concrete handler. -/
theorem c7_witness :
    (secure_phi_data (secure_phi_data ⟨false, ["mrn"], none⟩ []).1
        [[("email", "x")]]).1.phi_fields
      = (secure_phi_data ⟨false, ["mrn"], none⟩ []).1.phi_fields :=
  c7_amended_inference.2 ⟨false, ["mrn"], none⟩ [] (by decide) [[("email", "x")]]

/-- C5 counterexample: on the empty value, `_format_date` returns the
empty string with no warning, while the claim requires every value no
candidate format parses to come back with a warning. -/
theorem c5_counterexample :
    (format_date "" none).1 = "" ∧ (format_date "" none).2 = [] := by
  decide

/-- C5 amended: an empty value short-circuits to the empty string with no
warning; for every non-empty value with no explicit format the mapper uses
the first of `%Y-%m-%d`, `%m/%d/%Y`, `%d-%b-%Y` that parses and normalises
to `YYYY-MM-DD` (so `"03/15/2023"` maps to `"2023-03-15"`); when no
candidate (or the explicit format) parses, the original value is returned
unchanged with a warning, and the transform never raises (it is total). -/
theorem c5_amended_date_formats :
    (∀ v : String, v ≠ "" →
      format_date v none =
        match [DateFmt.iso, DateFmt.us, DateFmt.dmy].findSome?
            (fun f => strptime f v) with
        | some d => (strftimeISO d, [])
        | none => (v, ["Could not parse date value: " ++ v]))
    ∧ (∀ (v : String) (f : DateFmt), v ≠ "" → strptime f v = none →
        format_date v (some f) = (v, ["Error formatting date " ++ v]))
    ∧ format_date "" none = ("", [])
    ∧ format_date "03/15/2023" none = ("2023-03-15", []) := by
  refine ⟨fun v hv => ?_, fun v f hv hf => ?_, by decide, by decide⟩
  · rw [format_date, if_neg hv]
    simp only [List.findSome?]
    cases strptime .iso v <;> cases strptime .us v <;> cases strptime .dmy v <;> rfl
  · rw [format_date, if_neg hv, hf]

/-- Witness for C5's amended statement at concrete values. -/
theorem c5_witness :
    format_date "not-a-date" none =
      (match [DateFmt.iso, DateFmt.us, DateFmt.dmy].findSome?
          (fun f => strptime f "not-a-date") with
      | some d => (strftimeISO d, [])
      | none => ("not-a-date", ["Could not parse date value: " ++ "not-a-date"]))
    ∧ format_date "99/99/9999" (some .us) =
        ("99/99/9999", ["Error formatting date " ++ "99/99/9999"]) :=
  ⟨c5_amended_date_formats.1 "not-a-date" (by decide),
   c5_amended_date_formats.2.1 "99/99/9999" .us (by decide) (by decide)⟩

theorem find?_append_skip {α : Type} (pred : α → Bool) (post : List α) :
    ∀ pre : List α, (∀ q ∈ pre, pred q = false) →
      (pre ++ post).find? pred = post.find? pred := by
  intro pre
  induction pre with
  | nil => intro _; rfl
  | cons q t ih =>
    intro hpre
    have hq : pred q = false := hpre q (by simp)
    simp only [List.cons_append, List.find?, hq]
    exact ih (fun x hx => hpre x (by simp [hx]))

/-- C3 counterexample: with options `\x7b"v": "foo", "b": "v"\x7d` and
value `"v"`, the first option's code matches and wins even though a later
option's label matches; the claim's label-first rule would return `"b"`,
but the code returns `"v"`. -/
theorem c3_counterexample :
    (format_radio "v" [("v", "foo"), ("b", "v")]).1 = "v" ∧ "v" ≠ "b" := by
  decide

/-- C3 amended: for every non-empty value, the mapper returns the code of
the first option (in mapping order) whose label or code equals the value;
when no option's label or code matches it returns the empty string with a
warning (and never raises — the transform is total); dropdown delegates to
the radio rule. -/
theorem c3_amended_choice_lookup :
    (∀ (v : String) (opts : List (String × String)), v ≠ "" →
      ((∀ p ∈ opts, p.1 ≠ v ∧ p.2 ≠ v) →
        format_radio v opts =
          ("", ["Radio value \x27" ++ v ++ "\x27 not found in options"]))
      ∧ (∀ (pre post : List (String × String)) (p : String × String),
          opts = pre ++ p :: post →
          (∀ q ∈ pre, q.1 ≠ v ∧ q.2 ≠ v) →
          (p.2 = v ∨ p.1 = v) →
          format_radio v opts = (p.1, [])))
    ∧ (∀ (v : String) (opts : List (String × String)),
        format_dropdown v opts = format_radio v opts) := by
  refine ⟨fun v opts hv => ⟨fun hnone => ?_, fun pre post p hsplit hpre hp => ?_⟩,
    fun v opts => rfl⟩
  · rw [format_radio, if_neg hv]
    have : opts.find? (fun p => p.2 = v || p.1 = v) = none := by
      rw [List.find?_eq_none]
      intro q hq
      simp [(hnone q hq).1, (hnone q hq).2]
    rw [this]
  · rw [format_radio, if_neg hv, hsplit,
      find?_append_skip _ _ pre
        (fun q hq => by simp [(hpre q hq).1, (hpre q hq).2]),
      List.find?_cons_of_pos _ (by rcases hp with hp | hp <;> simp [hp])]

/-- Witness for C3's amended statement at concrete options. -/
theorem c3_witness :
    format_radio "zzz" [("1", "Yes")] =
      ("", ["Radio value \x27" ++ "zzz" ++ "\x27 not found in options"])
    ∧ format_radio "Yes" [("9", "No"), ("1", "Yes")] = ("1", []) :=
  ⟨(c3_amended_choice_lookup.1 "zzz" [("1", "Yes")] (by decide)).1
      (by intro p hp; fin_cases hp; exact ⟨by decide, by decide⟩),
   (c3_amended_choice_lookup.1 "Yes" [("9", "No"), ("1", "Yes")] (by decide)).2
      [("9", "No")] [] ("1", "Yes") rfl
      (by intro q hq; fin_cases hq; exact ⟨by decide, by decide⟩)
      (Or.inl rfl)⟩

theorem foldl_fst_eq {σ τ ρ : Type} (f : σ × τ → ρ → σ × τ)
    (h : ∀ a x, (f a x).1 = a.1) :
    ∀ (l : List ρ) (acc : σ × τ), (l.foldl f acc).1 = acc.1 := by
  intro l
  induction l with
  | nil => intro acc; rfl
  | cons x xs ih => intro acc; rw [List.foldl_cons, ih, h]

/-- C9: both stages leave the store of source records untouched — the
security stage secures a copy of each record and collects the copies in a
fresh output list, and the mapper builds fresh target records; the
threaded record store comes back equal to what went in. -/
theorem c9_stages_preserve_inputs :
    (∀ (phi0 : List String) (c : Option Cipher) (heap : List Record)
        (refs : List Nat),
      (secure_phi_data_store phi0 c heap refs).1 = heap)
    ∧ (∀ (evalFn : String → Option String) (mp : Mapping)
        (heap : List Record) (refs : List Nat),
      (map_data evalFn mp heap refs).1 = heap) := by
  constructor
  · intro phi0 c heap refs
    exact foldl_fst_eq
      (fun (acc : List Record × List Record) ref =>
        (acc.1, acc.2 ++ [secure_record c
          (if phi0 = [] then
            detect_phi_fields (refs.map (fun r => heap.getD r [])) else phi0)
          (acc.1.getD ref [])]))
      (fun a x => rfl) refs (heap, [])
  · intro evalFn mp heap refs
    rw [map_data]
    by_cases hs : mp.source_type = "csv"
    · rw [if_pos hs]
      exact foldl_fst_eq _
        (fun a x => by
          cases map_record evalFn mp (a.1.getD x []) with
          | none => rfl
          | some rec => rfl)
        refs (heap, [])
    · rw [if_neg hs]

/-- C4: the claim that `validate` never raises is the intended contract
(the check catches `ValueError` and defaults absent bounds), but the code
slips in `_check_date_ranges`'s message building: a parseable date below
the *defaulted* minimum interpolates `range_rule['min']`, raising an
uncaught `KeyError`.  This theorem evaluates the embedded code at such an
input: a date rule with no bounds and the value `1850-01-01` (before the
default minimum `1900-01-01`) aborts the whole run. -/
theorem c4_keyerror_eval :
    validate ⟨[], [], [("dob", ⟨none, none⟩)], []⟩
      [[("record_id", "R1"), ("dob", "1850-01-01")]]
      = .error "KeyError: \x27min\x27" := by
  rfl

theorem string_append_cancel_r (a b s : String) (h : a ++ s = b ++ s) : a = b := by
  have hd : a.data ++ s.data = b.data ++ s.data := by
    rw [← String.data_append, ← String.data_append, h]
  have h2 := List.append_cancel_right hd
  cases a; cases b; exact congrArg String.mk h2

theorem ne_append_encSuffix (f : String) : f ≠ f ++ encSuffix := by
  intro h
  have h1 : f.length = (f ++ encSuffix).length := by rw [← h]
  rw [String.length_append] at h1
  have h2 : encSuffix.length = 10 := rfl
  omega

theorem secure_field_frame (c : Option Cipher) (r : Record) (g k : String)
    (h1 : k ≠ g) (h2 : k ≠ g ++ encSuffix) :
    rget (secure_field c r g) k = rget r k := by
  unfold secure_field
  cases hv : rget r g with
  | none => rfl
  | some v =>
    by_cases hve : v = ""
    · simp [hve]
    · cases c with
      | none => simp only [if_neg hve]; exact rget_rset_ne _ _ _ _ h1
      | some ci =>
        simp only [if_neg hve]
        rw [rget_rset_ne _ _ _ _ h1, rget_rset_ne _ _ _ _ h2]

theorem secure_fold_frame (c : Option Cipher) (k : String) :
    ∀ (l : List String) (r : Record),
      k ∉ l → (∀ g ∈ l, g ++ encSuffix ≠ k) →
      rget (l.foldl (secure_field c) r) k = rget r k := by
  intro l
  induction l with
  | nil => intro r _ _; rfl
  | cons g t ih =>
    intro r hk hs
    rw [List.foldl_cons,
      ih _ (fun h => hk (by simp [h])) (fun g hg => hs g (by simp [hg]))]
    exact secure_field_frame c r g k (fun h => hk (by simp [h]))
      (hs g (by simp)).symm

theorem secure_field_write (c : Cipher) (r : Record) (f v : String)
    (h : rget r f = some v) (hv : v ≠ "") :
    secure_field (some c) r f
      = rset (rset r (f ++ encSuffix) (c.enc v)) f (redact_phi v) := by
  unfold secure_field
  rw [h]
  simp [hv]

theorem secure_record_spec (c : Cipher) (phi : List String) (r : Record)
    (f v : String) (hnd : phi.Nodup)
    (hns : ∀ g ∈ phi, g ++ encSuffix ∉ phi)
    (hf : f ∈ phi) (hv : rget r f = some v) (hvne : v ≠ "") :
    rget (secure_record (some c) phi r) f = some (redact_phi v)
    ∧ rget (secure_record (some c) phi r) (f ++ encSuffix) = some (c.enc v) := by
  obtain ⟨pre, post, rfl⟩ := List.append_of_mem hf
  rw [List.nodup_append] at hnd
  obtain ⟨hndpre, hndfp, hdisj⟩ := hnd
  have hfpre : f ∉ pre := fun h => hdisj h (by simp)
  have hfpost : f ∉ post := (List.nodup_cons.mp hndfp).1
  have henc_ne_f : ∀ g, g ∈ pre ∨ g ∈ post → g ++ encSuffix ≠ f := by
    intro g hg habs
    have hgphi : g ∈ pre ++ f :: post := by
      rcases hg with hg | hg
      · exact List.mem_append_left _ hg
      · exact List.mem_append_right _ (by simp [hg])
    exact hns g hgphi (habs ▸ hf)
  unfold secure_record
  rw [List.foldl_append, List.foldl_cons]
  have h1 : rget (pre.foldl (secure_field (some c)) r) f = some v := by
    rw [secure_fold_frame _ _ _ _ hfpre (fun g hg => henc_ne_f g (Or.inl hg))]
    exact hv
  rw [secure_field_write c _ f v h1 hvne]
  constructor
  · rw [secure_fold_frame _ _ _ _ hfpost (fun g hg => henc_ne_f g (Or.inr hg))]
    exact rget_rset_self _ _ _
  · have hsuffix_notin_post : f ++ encSuffix ∉ post := by
      intro h
      exact hns f hf (List.mem_append_right _ (by simp [h]))
    have hsuffix_ne : ∀ g ∈ post, g ++ encSuffix ≠ f ++ encSuffix := by
      intro g hg habs
      exact hfpost (string_append_cancel_r g f encSuffix habs ▸ hg)
    rw [secure_fold_frame _ _ _ _ hsuffix_notin_post hsuffix_ne,
      rget_rset_ne _ _ _ _ (ne_append_encSuffix f).symm]
    exact rget_rset_self _ _ _

/-- C2 counterexample: the round-trip claim fails for PHI-field
configurations in which a listed field's sibling name is itself secured
later.  First conjunct: with `phi_fields = ["ssn", "ssn_encrypted"]`, the
second pass redacts the freshly written ciphertext, so the stored sibling
of `ssn` no longer decrypts to the original.  Second conjunct: a
duplicated entry `["ssn", "ssn"]` re-encrypts the already-redacted value,
so the sibling decrypts to the redaction, not the original. -/
theorem c2_counterexample :
    (decrypt_field
        (secure_phi_data ⟨true, ["ssn", "ssn_encrypted"], some toyCipher⟩
          [[("ssn", "123-45-6789")]]).1
        ((rget ((secure_phi_data ⟨true, ["ssn", "ssn_encrypted"], some toyCipher⟩
            [[("ssn", "123-45-6789")]]).2.getD 0 []) "ssn_encrypted").getD "")
      ≠ some "123-45-6789")
    ∧ (decrypt_field
        (secure_phi_data ⟨true, ["ssn", "ssn"], some toyCipher⟩
          [[("ssn", "123-45-6789")]]).1
        ((rget ((secure_phi_data ⟨true, ["ssn", "ssn"], some toyCipher⟩
            [[("ssn", "123-45-6789")]]).2.getD 0 []) "ssn_encrypted").getD "")
      ≠ some "123-45-6789") := by
  constructor
  · decide
  · decide

/-- C2 amended: in protected mode, provided the configured PHI field list
is duplicate-free and no listed name equals another listed name followed
by `_encrypted`, every record's truthy PHI field `f` yields a secured
record whose `f` holds the redacted form and whose sibling `f_encrypted`
holds the ciphertext of the original value, and decrypting that sibling
with the same handler returns the original exactly. -/
theorem c2_amended_roundtrip (h : SecurityHandler) (c : Cipher)
    (hc : h.cipher = some c)
    (hnd : h.phi_fields.Nodup)
    (hns : ∀ g ∈ h.phi_fields, g ++ encSuffix ∉ h.phi_fields)
    (data : List Record) (i : Nat) (r : Record) (f v : String)
    (hi : data.getD i [] = r) (hilt : i < data.length)
    (hf : f ∈ h.phi_fields)
    (hv : rget r f = some v) (hvne : v ≠ "")
    (hrt : c.dec (c.enc v) = some v) :
    rget ((secure_phi_data h data).2.getD i []) f = some (redact_phi v)
    ∧ rget ((secure_phi_data h data).2.getD i []) (f ++ encSuffix)
        = some (c.enc v)
    ∧ decrypt_field (secure_phi_data h data).1
        ((rget ((secure_phi_data h data).2.getD i []) (f ++ encSuffix)).getD "")
        = some v := by
  have hφne : h.phi_fields ≠ [] := List.ne_nil_of_mem hf
  have hmap : (secure_phi_data h data).2.getD i []
      = secure_record h.cipher h.phi_fields r := by
    show ((data.map (secure_record h.cipher
        (if h.phi_fields = [] then detect_phi_fields data else h.phi_fields))).getD i [])
      = _
    rw [if_neg hφne, List.getD_eq_getElem?_getD, List.getElem?_map]
    rw [List.getElem?_eq_getElem hilt]
    rw [← hi, List.getD_eq_getElem?_getD, List.getElem?_eq_getElem hilt]
    rfl
  rw [hmap, hc]
  obtain ⟨h1, h2⟩ := secure_record_spec c h.phi_fields r f v hnd hns hf hv hvne
  refine ⟨h1, h2, ?_⟩
  rw [h2]
  show decrypt_field { h with phi_fields := _ } (c.enc v) = some v
  rw [decrypt_field]
  rw [show ({ h with phi_fields :=
      if h.phi_fields = [] then detect_phi_fields data else h.phi_fields
    } : SecurityHandler).cipher = h.cipher from rfl, hc]
  exact hrt

/-- Witness for C2's amended statement at the spec's `ssn` example. -/
theorem c2_witness :
    rget ((secure_phi_data ⟨true, ["ssn"], some toyCipher⟩
        [[("ssn", "123-45-6789")]]).2.getD 0 []) "ssn" = some "12*****89"
    ∧ rget ((secure_phi_data ⟨true, ["ssn"], some toyCipher⟩
        [[("ssn", "123-45-6789")]]).2.getD 0 []) ("ssn" ++ encSuffix)
        = some "gAAAAA123-45-6789="
    ∧ decrypt_field
        (secure_phi_data ⟨true, ["ssn"], some toyCipher⟩
          [[("ssn", "123-45-6789")]]).1
        ((rget ((secure_phi_data ⟨true, ["ssn"], some toyCipher⟩
            [[("ssn", "123-45-6789")]]).2.getD 0 []) ("ssn" ++ encSuffix)).getD "")
        = some "123-45-6789" := by
  have h := c2_amended_roundtrip
    ⟨true, ["ssn"], some toyCipher⟩ toyCipher
    rfl (by decide) (by decide)
    [[("ssn", "123-45-6789")]] 0 [("ssn", "123-45-6789")] "ssn" "123-45-6789"
    rfl (by decide) (by decide) (by decide) (by decide) (by decide)
  obtain ⟨h1, h2, h3⟩ := h
  refine ⟨?_, ?_, h3⟩
  · rw [h1]; rfl
  · rw [h2]; rfl

/-! ### Lemmas for C6 -/

theorem map_star (l : List Char) :
    l.map (fun _ => '*') = List.replicate l.length '*' := by
  induction l with
  | nil => rfl
  | cons c t ih => simp [List.replicate, ih]

theorem maskKeep_general (cs : List Char) (k : Nat) (h : 2 * k ≤ cs.length) :
    maskKeep k cs
      = cs.take k ++ List.replicate (cs.length - 2 * k) '*'
          ++ cs.drop (cs.length - k) := by
  have hAlen : (cs.take k).length = k := by
    rw [List.length_take]; omega
  have hABlen : (cs.take k ++ List.replicate (cs.length - 2 * k) '*').length
      = cs.length - k := by
    rw [List.length_append, hAlen, List.length_replicate]; omega
  apply List.ext_getElem
  · rw [List.length_append, hABlen, List.length_drop]
    simp only [maskKeep, List.length_map, List.length_range]
    omega
  · intro i h1 h2
    have hilen : i < cs.length := by
      simpa [maskKeep] using h1
    simp only [maskKeep, List.getElem_map, List.getElem_range]
    by_cases hik : i < k
    · rw [List.getElem_append_left (by rw [hABlen]; omega),
        List.getElem_append_left (by rw [hAlen]; omega : i < (cs.take k).length),
        List.getElem_take, if_pos (Or.inl hik), List.getD_eq_getElem cs '*' hilen]
    · by_cases hib : cs.length - k ≤ i
      · rw [List.getElem_append_right (by rw [hABlen]; omega),
          List.getElem_drop, if_pos (Or.inr hib),
          List.getD_eq_getElem cs '*' hilen]
        congr 1
        rw [hABlen]
        omega
      · rw [List.getElem_append_left (by rw [hABlen]; omega),
          List.getElem_append_right (by rw [hAlen]; omega),
          List.getElem_replicate, if_neg (by omega)]

theorem maskKeep_one (cs : List Char) (h : 2 < cs.length) :
    maskKeep 1 cs
      = cs.take 1 ++ List.replicate (cs.length - 2) '*'
          ++ cs.drop (cs.length - 1) := by
  have := maskKeep_general cs 1 (by omega)
  simpa using this

theorem maskKeep_two (cs : List Char) (h : 4 ≤ cs.length) :
    maskKeep 2 cs
      = cs.take 2 ++ List.replicate (cs.length - 4) '*'
          ++ cs.drop (cs.length - 2) := by
  have := maskKeep_general cs 2 (by omega)
  simpa using this

theorem splitOnC_ne_nil (sep : Char) (cs : List Char) : splitOnC sep cs ≠ [] := by
  cases cs with
  | nil => simp [splitOnC]
  | cons c t =>
    unfold splitOnC
    cases splitOnC sep t with
    | nil => simp
    | cons h t' =>
      by_cases hc : c = sep
      · simp [hc]
      · simp [hc]

theorem splitOnC_headD (sep : Char) (cs : List Char) :
    (splitOnC sep cs).headD [] = cs.takeWhile (fun c => c ≠ sep) := by
  induction cs with
  | nil => rfl
  | cons c t ih =>
    obtain ⟨h0, t0, heq⟩ := List.exists_cons_of_ne_nil (splitOnC_ne_nil sep t)
    by_cases hc : c = sep
    · subst hc
      unfold splitOnC
      rw [heq]
      change (if c = c then ([] : List Char) :: h0 :: t0
        else (c :: h0) :: t0).headD [] = _
      rw [if_pos rfl]
      simp [List.takeWhile_cons]
    · unfold splitOnC
      rw [heq]
      change (if c = sep then ([] : List Char) :: h0 :: t0
        else (c :: h0) :: t0).headD [] = _
      rw [if_neg hc]
      have hh : h0 = t.takeWhile (fun c => c ≠ sep) := by
        rw [← ih, heq]; rfl
      simp [List.takeWhile_cons, hc, hh]

theorem splitOnC_getD1 (sep : Char) (cs : List Char) (h : cs.contains sep = true) :
    (splitOnC sep cs).getD 1 []
      = ((cs.dropWhile (fun c => c ≠ sep)).drop 1).takeWhile (fun c => c ≠ sep) := by
  induction cs with
  | nil => simp at h
  | cons c t ih =>
    obtain ⟨h0, t0, heq⟩ := List.exists_cons_of_ne_nil (splitOnC_ne_nil sep t)
    by_cases hc : c = sep
    · subst hc
      unfold splitOnC
      rw [heq]
      change (if c = c then ([] : List Char) :: h0 :: t0
        else (c :: h0) :: t0).getD 1 [] = _
      rw [if_pos rfl]
      have hhead := splitOnC_headD c t
      rw [heq] at hhead
      simpa [List.dropWhile_cons, List.getD_cons_succ, List.getD_cons_zero]
        using hhead
    · have ht : t.contains sep = true := by
        simp only [List.contains_cons, Bool.or_eq_true, beq_iff_eq] at h
        rcases h with h | h
        · exact absurd h.symm hc
        · exact h
      unfold splitOnC
      rw [heq]
      change (if c = sep then ([] : List Char) :: h0 :: t0
        else (c :: h0) :: t0).getD 1 [] = _
      rw [if_neg hc]
      have hih := ih ht
      rw [heq] at hih
      simpa [List.dropWhile_cons, List.getD_cons_succ, hc] using hih

/-- C6 counterexample.  First conjunct: for the email-shaped value
`"ab@x.com"` the claim keeps the first character of the local part, but
the code masks a local part of at most two characters entirely (the
result starts with `'*'`, not `'a'`).  Second conjunct: `"123.456"` is
digit/punctuation-only in the claim's sense, but the code's character
class is only `[0-9()-]`, so the value falls into the general-text case:
the result is computed over the raw characters (7 characters, 3 masked),
not over the 6 digits (which would mask 2). -/
theorem c6_counterexample :
    ((redact_phi "ab@x.com").data.headD ' ' = '*'
      ∧ ("ab@x.com" : String).data.headD ' ' = 'a')
    ∧ (redact_phi "123.456" = "12***56"
      ∧ "12***56" ≠ "12**56" ∧ "12***56" ≠ "12*.*56") := by
  constructor
  · constructor
    · decide
    · decide
  · refine ⟨by decide, by decide, by decide⟩

/-- C6 amended: the redaction applies exactly one case to each value, in
this order — empty values pass through; an email-shaped value (an `@` with
a `.` in the segment between the first and second `@`) keeps the first and
last character of its local part with the middle masked *when the local
part has more than two characters* and masks the local part entirely
otherwise, keeping that segment (anything after a second `@` is dropped);
a value of digits, hyphens and parentheses only is reduced to its digits,
which keep the first two and last two when there are more than four and
are masked entirely otherwise; any other value longer than six characters
keeps its first two and last two characters with the interior masked; and
every remaining value is masked entirely.  `claimRedact` states this
policy; the code's redaction equals it on every input. -/
theorem c6_amended_redaction (v : String) : redact_phi v = claimRedact v := by
  unfold redact_phi claimRedact
  by_cases hnil : v.data = []
  · rw [if_pos hnil, if_pos hnil]
  · rw [if_neg hnil, if_neg hnil]
    have hcond : (v.data.contains '@'
        && ((splitOnC '@' v.data).getD 1 []).contains '.')
        = isEmailShaped v.data := by
      unfold isEmailShaped
      by_cases hat : v.data.contains '@' = true
      · rw [splitOnC_getD1 '@' v.data hat]; rfl
      · rw [Bool.not_eq_true] at hat
        rw [hat, Bool.false_and, Bool.false_and]
    rw [hcond]
    by_cases hemail : isEmailShaped v.data = true
    · rw [if_pos hemail, if_pos hemail]
      have hat : v.data.contains '@' = true := by
        have h' := hemail
        unfold isEmailShaped at h'
        simp only [Bool.and_eq_true] at h'
        exact h'.1
      have hhead : (splitOnC '@' v.data).headD [] = localPart v.data :=
        splitOnC_headD '@' v.data
      have hseg : (splitOnC '@' v.data).getD 1 [] = domainSeg v.data := by
        rw [splitOnC_getD1 '@' v.data hat]; rfl
      rw [hhead, hseg]
      by_cases hlp : 2 < (localPart v.data).length
      · rw [if_pos hlp, if_pos hlp, maskKeep_one _ hlp]
      · rw [if_neg hlp, if_neg hlp, map_star]
    · rw [if_neg hemail, if_neg hemail]
      unfold isPhoneShaped
      by_cases hph : v.data.all
          (fun c => c.isDigit || c = '-' || c = '(' || c = ')') = true
      · rw [if_pos hph, if_pos hph]
        by_cases hd4 : 4 < (v.data.filter Char.isDigit).length
        · rw [if_pos hd4, if_pos hd4, maskKeep_two _ (by omega)]
        · rw [if_neg hd4, if_neg hd4, map_star]
      · rw [if_neg hph, if_neg hph]
        by_cases h6 : 6 < v.data.length
        · rw [if_pos h6, if_pos h6, maskKeep_two _ (by omega)]
        · rw [if_neg h6, if_neg h6, map_star]

/-! ### Lemmas for C8 -/

theorem getIssues_addIssueTo_same (k : String) (e : Bool) (m : String) :
    ∀ ris : List (String × RecordIssues),
      getIssues (addIssueTo k e m ris) k = pushIssue (getIssues ris k) e m := by
  intro ris
  induction ris with
  | nil => simp [addIssueTo, getIssues]
  | cons p t ih =>
    by_cases hp : p.1 = k
    · simp [addIssueTo, getIssues, hp]
    · simp [addIssueTo, getIssues, hp, ih]

theorem getIssues_addIssueTo_other (k k' : String) (e : Bool) (m : String)
    (hk : k' ≠ k) :
    ∀ ris : List (String × RecordIssues),
      getIssues (addIssueTo k e m ris) k' = getIssues ris k' := by
  intro ris
  induction ris with
  | nil =>
    have : ¬ (k = k') := fun h => hk h.symm
    simp [addIssueTo, getIssues, this]
  | cons p t ih =>
    have hkk' : ¬ (k = k') := fun h => hk h.symm
    by_cases hp : p.1 = k
    · have hpk' : ¬ (p.1 = k') := by rw [hp]; exact hkk'
      simp [addIssueTo, getIssues, hp, hpk', hkk']
    · by_cases hp' : p.1 = k'
      · simp [addIssueTo, getIssues, hp, hp', hk]
      · simp [addIssueTo, getIssues, hp, hp', ih]

theorem addRecordIssue_errors (res : Results) (k : String) (e : Bool)
    (m : String) : (addRecordIssue res k e m).errors = res.errors := rfl

theorem addRecordIssue_warnings (res : Results) (k : String) (e : Bool)
    (m : String) : (addRecordIssue res k e m).warnings = res.warnings := rfl

/-- Global errors are untouched by any fold whose step leaves them
untouched. -/
theorem foldl_errors_eq {α : Type} (f : Results → α → Results)
    (h : ∀ res x, (f res x).errors = res.errors) :
    ∀ (l : List α) (res : Results), (l.foldl f res).errors = res.errors := by
  intro l
  induction l with
  | nil => intro res; rfl
  | cons x xs ih => intro res; rw [List.foldl_cons, ih, h]

theorem foldE_errors {α : Type} (f : Results → α → Except String Results)
    (h : ∀ res x res', f res x = .ok res' → res'.errors = res.errors) :
    ∀ (l : List α) (res res' : Results),
      foldE f l res = .ok res' → res'.errors = res.errors := by
  intro l
  induction l with
  | nil =>
    intro res res' hk
    exact congrArg Results.errors (Except.ok.inj hk).symm
  | cons x xs ih =>
    intro res res' hk
    rw [foldE] at hk
    cases hf : f res x with
    | error e => rw [hf] at hk; exact absurd hk (by simp)
    | ok res1 => rw [hf] at hk; rw [ih res1 res' hk, h res x res1 hf]

theorem check_required_fields_errors (rules : ValidationRules)
    (data : List Record) (res : Results) :
    (check_required_fields rules data res).errors = res.errors := by
  rw [check_required_fields]
  by_cases h : rules.required_fields = []
  · rw [if_pos h]
  · rw [if_neg h]
    apply foldl_errors_eq
    intro res p
    by_cases hm : rules.required_fields.filter (fun f => ¬ truthyAt p.2 f) = []
    · rw [if_pos hm]
    · rw [if_neg hm, addRecordIssue_errors]

theorem check_field_formats_errors (rules : ValidationRules)
    (data : List Record) (res : Results) :
    (check_field_formats rules data res).errors = res.errors := by
  rw [check_field_formats]
  by_cases h : rules.field_formats = []
  · rw [if_pos h]
  · rw [if_neg h]
    apply foldl_errors_eq
    intro res p
    apply foldl_errors_eq
    intro res fr
    repeat' split
    all_goals rfl

theorem date_rule_step_errors (rid : String) (r : Record) (res : Results)
    (p : String × RangeRule) (res' : Results)
    (h : date_rule_step rid r res p = .ok res') : res'.errors = res.errors := by
  rw [date_rule_step] at h
  repeat' split at h
  all_goals first
    | (cases Except.ok.inj h; rfl)
    | simp at h

theorem check_date_ranges_errors (rules : ValidationRules)
    (data : List Record) (res res' : Results)
    (h : check_date_ranges rules data res = .ok res') :
    res'.errors = res.errors := by
  rw [check_date_ranges] at h
  by_cases hr : rules.date_range = []
  · rw [if_pos hr] at h
    exact congrArg Results.errors (Except.ok.inj h).symm
  · rw [if_neg hr] at h
    exact foldE_errors _
      (fun res p res' hp => foldE_errors _
        (fun res q res' hq => date_rule_step_errors _ _ _ _ _ hq)
        _ _ _ hp)
      _ _ _ h

theorem numeric_rule_step_errors (rid : String) (r : Record) (res : Results)
    (p : String × RangeRule) :
    (numeric_rule_step rid r res p).errors = res.errors := by
  rw [numeric_rule_step]
  repeat' split
  all_goals rfl


theorem check_numeric_ranges_errors (rules : ValidationRules)
    (data : List Record) (res : Results) :
    (check_numeric_ranges rules data res).errors = res.errors := by
  rw [check_numeric_ranges]
  by_cases h : rules.numeric_range = []
  · rw [if_pos h]
  · rw [if_neg h]
    apply foldl_errors_eq
    intro res p
    apply foldl_errors_eq
    intro res q
    exact numeric_rule_step_errors _ _ _ _

theorem check_data_consistency_errors (data : List Record) (res : Results) :
    (check_data_consistency data res).errors
      = res.errors
        ++ (((recordIds data).filter
            (fun id => 1 < (recordIds data).count id)).dedup).map dupMsg := by
  rw [check_data_consistency]
  apply Eq.trans
    (foldl_errors_eq _ (fun res p => by
      by_cases hm : missingOf data p.2 = []
      · simp [hm]
      · simp [hm, addRecordIssue_errors]) _ _)
  rfl

theorem string_append_cancel_l (s a b : String) (h : s ++ a = s ++ b) : a = b := by
  have hd : s.data ++ a.data = s.data ++ b.data := by
    rw [← String.data_append, ← String.data_append, h]
  have h2 := List.append_cancel_left hd
  cases a; cases b; exact congrArg String.mk h2

theorem dupMsg_injective : Function.Injective dupMsg := by
  intro a b h
  exact string_append_cancel_l "Duplicate record ID found: " a b h

theorem noData_ne_dupMsg (id : String) :
    "No data provided for validation" ≠ dupMsg id := by
  intro h
  have hh : ("No data provided for validation" : String).data.headD ' '
      = (dupMsg id).data.headD ' ' := by rw [h]
  have h1 : ("No data provided for validation" : String).data.headD ' ' = 'N' := rfl
  have h2 : (dupMsg id).data.headD ' ' = 'D' := rfl
  rw [h1, h2] at hh
  exact absurd hh (by decide)

theorem dups_map_count (ids : List String) (id : String) :
    (((ids.filter (fun x => 1 < ids.count x)).dedup).map dupMsg).count (dupMsg id)
      = if 2 ≤ ids.count id then 1 else 0 := by
  rw [List.count_map_of_injective _ dupMsg dupMsg_injective,
    List.count_dedup]
  by_cases h : 2 ≤ ids.count id
  · rw [if_pos h, if_pos]
    rw [List.mem_filter]
    refine ⟨?_, by simp; omega⟩
    have : 0 < ids.count id := by omega
    exact List.count_pos_iff.mp this
  · rw [if_neg h, if_neg]
    rw [List.mem_filter]
    rintro ⟨-, hp⟩
    simp at hp
    omega

/-- Per-record errors at every key are untouched by a fold whose step
leaves them untouched. -/
theorem foldl_recerrors_eq {α : Type} (f : Results → α → Results)
    (h : ∀ res x k,
      (getIssues (f res x).record_issues k).errors
        = (getIssues res.record_issues k).errors) :
    ∀ (l : List α) (res : Results) (k : String),
      (getIssues ((l.foldl f res)).record_issues k).errors
        = (getIssues res.record_issues k).errors := by
  intro l
  induction l with
  | nil => intro res k; rfl
  | cons x xs ih => intro res k; rw [List.foldl_cons, ih, h]

/-- Warnings at a key are untouched by the consistency warning loop over
pairs whose labels all differ from that key. -/
theorem consistency_warnfold_frame (data : List Record) (k : String) :
    ∀ (l : List (Nat × Record)) (res : Results),
      (∀ p ∈ l, labelOf p.2 p.1 ≠ k) →
      (getIssues ((l.foldl (fun res p =>
          if missingOf data p.2 = [] then res
          else addRecordIssue res (labelOf p.2 p.1) false
            (presenceMsg (missingOf data p.2))) res)).record_issues k).warnings
        = (getIssues res.record_issues k).warnings := by
  intro l
  induction l with
  | nil => intro res _; rfl
  | cons p t ih =>
    intro res hl
    rw [List.foldl_cons, ih _ (fun q hq => hl q (by simp [hq]))]
    by_cases hm : missingOf data p.2 = []
    · rw [if_pos hm]
    · rw [if_neg hm]
      show (getIssues (addIssueTo (labelOf p.2 p.1) false _ res.record_issues) k).warnings
        = _
      rw [getIssues_addIssueTo_other _ _ _ _ (fun h => hl p (by simp) h.symm)]

theorem pushIssue_false_warnings (ri : RecordIssues) (m : String) :
    (pushIssue ri false m).warnings = ri.warnings ++ [m] := rfl

theorem mem_enumIdx (data : List Record) :
    ∀ (j i : Nat) (r : Record), data[i]? = some r → (j + i, r) ∈ enumIdx j data := by
  induction data with
  | nil => intro j i r h; simp at h
  | cons d t ih =>
    intro j i r h
    cases i with
    | zero =>
      simp at h
      simp [enumIdx, h]
    | succ n =>
      have h2 := ih (j + 1) n r (by simpa using h)
      have harith : j + (n + 1) = (j + 1) + n := by omega
      rw [enumIdx, List.mem_cons]
      right
      rw [harith]
      exact h2

/-- C8: (a) every successful validation reports exactly one global
duplicate-identifier error per identifier value occurring at least twice
among the records that carry a `record_id`; (b) the consistency check
never adds a per-record error (its per-record findings are warnings); (c)
for pairwise-distinct record labels, a record missing a field that some
other record carries gains exactly one field-presence warning, while a
record whose only absent field is `record_id` (which is exempt) gains
none. -/
theorem c8_consistency_check :
    (∀ (rules : ValidationRules) (data : List Record) (v : Verdict)
        (id : String),
      validate rules data = .ok v →
      v.errors.count (dupMsg id)
        = if 2 ≤ (recordIds data).count id then 1 else 0)
    ∧ (∀ (data : List Record) (res : Results) (k : String),
        (getIssues (check_data_consistency data res).record_issues k).errors
          = (getIssues res.record_issues k).errors)
    ∧ (∀ (data : List Record) (res : Results) (i : Nat) (r : Record),
        data[i]? = some r →
        ((enumIdx 0 data).map (fun p => labelOf p.2 p.1)).Nodup →
        (getIssues (check_data_consistency data res).record_issues
            (labelOf r i)).warnings
          = (getIssues res.record_issues (labelOf r i)).warnings
            ++ (if missingOf data r = [] then []
                else [presenceMsg (missingOf data r)])) := by
  refine ⟨?_, ?_, ?_⟩
  · intro rules data v id h
    rcases validate_ok_cases rules data v h with ⟨hd, hv⟩ | ⟨hd, r3, h3, hv⟩
    · subst hv
      subst hd
      show List.count (dupMsg id) ["No data provided for validation"] = _
      rw [List.count_singleton]
      rw [if_neg (by simp [noData_ne_dupMsg id]), if_neg (by simp [recordIds])]
    · subst hv
      show (check_data_consistency data
        (check_numeric_ranges rules data r3)).errors.count (dupMsg id) = _
      rw [check_data_consistency_errors, List.count_append,
        check_numeric_ranges_errors,
        check_date_ranges_errors rules data _ r3 h3,
        check_field_formats_errors, check_required_fields_errors]
      show List.count (dupMsg id) [] + _ = _
      rw [List.count_nil, Nat.zero_add, dups_map_count]
  · intro data res k
    rw [check_data_consistency]
    apply foldl_recerrors_eq
    intro res p k
    by_cases hm : missingOf data p.2 = []
    · rw [if_pos hm]
    · rw [if_neg hm]
      show (getIssues (addIssueTo (labelOf p.2 p.1) false _ res.record_issues) k).errors
        = _
      by_cases hk : k = labelOf p.2 p.1
      · subst hk
        rw [getIssues_addIssueTo_same]
        rfl
      · rw [getIssues_addIssueTo_other _ _ _ _ hk]
  · intro data res i r hi hnodup
    have hmem : (i, r) ∈ enumIdx 0 data := by
      have := mem_enumIdx data 0 i r hi
      simpa using this
    obtain ⟨l1, l2, hsplit⟩ := List.append_of_mem hmem
    have hlabels := hnodup
    rw [hsplit, List.map_append, List.map_cons, List.nodup_append] at hlabels
    obtain ⟨-, hcons, hdisj⟩ := hlabels
    have hl1 : ∀ p ∈ l1, labelOf p.2 p.1 ≠ labelOf r i := by
      intro p hp habs
      exact hdisj (List.mem_map_of_mem _ hp) (by simp [habs])
    have hl2 : ∀ p ∈ l2, labelOf p.2 p.1 ≠ labelOf r i := by
      intro p hp habs
      exact ((List.nodup_cons.mp hcons).1) (by
        rw [← habs]
        exact List.mem_map_of_mem _ hp)
    rw [check_data_consistency, hsplit, List.foldl_append, List.foldl_cons]
    rw [consistency_warnfold_frame data _ l2 _ hl2]
    by_cases hm : missingOf data r = []
    · rw [if_pos hm, if_pos hm,
        consistency_warnfold_frame data _ l1 _ hl1, List.append_nil]
    · rw [if_neg hm, if_neg hm]
      show (getIssues (addIssueTo (labelOf r i) false _ _) (labelOf r i)).warnings
        = _
      rw [getIssues_addIssueTo_same, pushIssue_false_warnings,
        consistency_warnfold_frame data _ l1 _ hl1]

/-- Witness for C8 at a concrete record set with one duplicated
identifier and one drifting field. -/
theorem c8_witness :
    (okD (validate ⟨[], [], [], []⟩
        [[("record_id", "P001")], [("record_id", "P001"), ("x", "1")],
          [("record_id", "P002"), ("x", "2")]])).errors.count (dupMsg "P001") = 1
    ∧ (getIssues (check_data_consistency
          [[("record_id", "A")], [("record_id", "B"), ("x", "1")]]
          ⟨[], [], []⟩).record_issues "A").errors
        = (getIssues ([] : List (String × RecordIssues)) "A").errors
    ∧ (getIssues (check_data_consistency
          [[("record_id", "A")], [("record_id", "B"), ("x", "1")]]
          ⟨[], [], []⟩).record_issues "A").warnings
        = (getIssues ([] : List (String × RecordIssues)) "A").warnings
          ++ (if missingOf [[("record_id", "A")], [("record_id", "B"), ("x", "1")]]
                [("record_id", "A")] = []
              then []
              else [presenceMsg (missingOf
                [[("record_id", "A")], [("record_id", "B"), ("x", "1")]]
                [("record_id", "A")])]) := by
  refine ⟨?_, ?_, ?_⟩
  · have h := c8_consistency_check.1 ⟨[], [], [], []⟩
      [[("record_id", "P001")], [("record_id", "P001"), ("x", "1")],
        [("record_id", "P002"), ("x", "2")]]
      (okD (validate ⟨[], [], [], []⟩
        [[("record_id", "P001")], [("record_id", "P001"), ("x", "1")],
          [("record_id", "P002"), ("x", "2")]])) "P001" rfl
    rw [h]
    decide
  · exact c8_consistency_check.2.1
      [[("record_id", "A")], [("record_id", "B"), ("x", "1")]] ⟨[], [], []⟩ "A"
  · have h := c8_consistency_check.2.2
      [[("record_id", "A")], [("record_id", "B"), ("x", "1")]] ⟨[], [], []⟩
      0 [("record_id", "A")] rfl (by decide)
    simpa using h

end RedcapMigration
